import Mathlib

/-!
Verification of the `ray_tracer` repository (src/object.rs, src/image.rs,
src/utils.rs) against its natural-language specification.

Modelling conventions.  Rust `f64` values are modelled as real numbers
(exact real arithmetic; floating-point rounding is out of scope).  The
unsigned machine integers `u8`, `u16`, `u32` are modelled as naturals with
the wrap-around of machine arithmetic made explicit through `% 2 ^ w` where
it matters, and a `u16` division by zero (a Rust panic) surfaces as
`Option.none`.  `f64::INFINITY` occurs only as an interval bound, so the
bounds of `Interval` live in `EReal` while every other quantity stays in
`ℝ`.  Every call into the global random source (`Vec3::random_unit_vector`
and the camera's sub-pixel jitter) is modelled by an explicit parameter
supplying the drawn vector, since the Rust code has no seeding contract.
-/

namespace RayTracer

/-- `Vec3` from src/object.rs: three `f64` components. -/
@[ext]
structure Vec3 where
  x : ℝ
  y : ℝ
  z : ℝ

/-- `impl ops::Add<Vec3> for Vec3`. -/
instance : Add Vec3 := ⟨fun a b => ⟨a.x + b.x, a.y + b.y, a.z + b.z⟩⟩

/-- `impl ops::Sub<Vec3> for Vec3`. -/
instance : Sub Vec3 := ⟨fun a b => ⟨a.x - b.x, a.y - b.y, a.z - b.z⟩⟩

/-- `impl ops::Mul<Vec3> for f64` (scalar on the left). -/
instance : SMul ℝ Vec3 := ⟨fun r v => ⟨r * v.x, r * v.y, r * v.z⟩⟩

/-- `impl ops::Mul<f64> for Vec3` (scalar on the right). -/
def Vec3.mulS (v : Vec3) (s : ℝ) : Vec3 := ⟨v.x * s, v.y * s, v.z * s⟩

/-- `impl ops::Div<f64> for Vec3`. -/
noncomputable def Vec3.divS (v : Vec3) (s : ℝ) : Vec3 := ⟨v.x / s, v.y / s, v.z / s⟩

@[simp] theorem Vec3.add_x (a b : Vec3) : (a + b).x = a.x + b.x := rfl

@[simp] theorem Vec3.add_y (a b : Vec3) : (a + b).y = a.y + b.y := rfl

@[simp] theorem Vec3.add_z (a b : Vec3) : (a + b).z = a.z + b.z := rfl

@[simp] theorem Vec3.sub_x (a b : Vec3) : (a - b).x = a.x - b.x := rfl

@[simp] theorem Vec3.sub_y (a b : Vec3) : (a - b).y = a.y - b.y := rfl

@[simp] theorem Vec3.sub_z (a b : Vec3) : (a - b).z = a.z - b.z := rfl

@[simp] theorem Vec3.smul_x (r : ℝ) (v : Vec3) : (r • v).x = r * v.x := rfl

@[simp] theorem Vec3.smul_y (r : ℝ) (v : Vec3) : (r • v).y = r * v.y := rfl

@[simp] theorem Vec3.smul_z (r : ℝ) (v : Vec3) : (r • v).z = r * v.z := rfl

@[simp] theorem Vec3.mulS_x (v : Vec3) (s : ℝ) : (v.mulS s).x = v.x * s := rfl

@[simp] theorem Vec3.mulS_y (v : Vec3) (s : ℝ) : (v.mulS s).y = v.y * s := rfl

@[simp] theorem Vec3.mulS_z (v : Vec3) (s : ℝ) : (v.mulS s).z = v.z * s := rfl

@[simp] theorem Vec3.divS_x (v : Vec3) (s : ℝ) : (v.divS s).x = v.x / s := rfl

@[simp] theorem Vec3.divS_y (v : Vec3) (s : ℝ) : (v.divS s).y = v.y / s := rfl

@[simp] theorem Vec3.divS_z (v : Vec3) (s : ℝ) : (v.divS s).z = v.z / s := rfl

/-- `Vec3::len`: Euclidean length. -/
noncomputable def Vec3.len (v : Vec3) : ℝ :=
  Real.sqrt (v.x * v.x + v.y * v.y + v.z * v.z)

/-- `Vec3::normalized`: divide by the length (no zero-vector guard, as in
the source). -/
noncomputable def Vec3.normalized (v : Vec3) : Vec3 := v.divS v.len

/-- `Vec3::dot`. -/
def Vec3.dot (a b : Vec3) : ℝ := a.x * b.x + a.y * b.y + a.z * b.z

/-- `Vec3::near_zero` from src/object.rs: the comparison is on the signed
components themselves, with no absolute value taken. -/
def Vec3.near_zero (v : Vec3) : Prop :=
  v.x < 1e-8 ∧ v.y < 1e-8 ∧ v.z < 1e-8

/-- `Point` is an alias of `Vec3`. -/
abbrev Point := Vec3

/-- `Ray` from src/object.rs. -/
structure Ray where
  origin : Point
  direction : Vec3

/-- `Ray::at` (renamed: `at` is reserved in Lean). -/
noncomputable def Ray.pointAt (r : Ray) (t : ℝ) : Point :=
  r.origin + r.direction.mulS t

/-- `MAX_COLOR_CHANNEL_VALUE` from src/image.rs. -/
def MAX_COLOR_CHANNEL_VALUE : ℕ := 255

/-- `Color` from src/image.rs: three `u8` channels. -/
structure Color where
  r : ℕ
  g : ℕ
  b : ℕ
deriving DecidableEq

/-- Rust's saturating `f64` → `u8` `as` cast: truncate toward zero, then
clamp into `[0, 255]`.  On the nonnegative inputs that occur here this is
`min 255 ⌊x⌋`, and `Int.toNat` clamps the negative case to `0`. -/
noncomputable def toU8 (x : ℝ) : ℕ := (min 255 ⌊x⌋).toNat

/-- One channel of `impl ops::Add<Color> for Color`: `overflowing_add` on
`u8` wraps modulo `2^8` and reports overflow, and the code substitutes
`MAX_COLOR_CHANNEL_VALUE` when the addition overflowed. -/
def satAdd (a b : ℕ) : ℕ :=
  if 256 ≤ a + b then MAX_COLOR_CHANNEL_VALUE else (a + b) % 256

/-- `impl ops::Add<Color> for Color` (saturating at 255). -/
def Color.add (c1 c2 : Color) : Color :=
  ⟨satAdd c1.r c2.r, satAdd c1.g c2.g, satAdd c1.b c2.b⟩

/-- `impl ops::Mul<Color> for f64`: each `f64` product is cast back to
`u8`. -/
noncomputable def Color.smulC (a : ℝ) (c : Color) : Color :=
  ⟨toU8 (a * c.r), toU8 (a * c.g), toU8 (a * c.b)⟩

/-- `Color::white`. -/
def Color.white : Color := ⟨MAX_COLOR_CHANNEL_VALUE, MAX_COLOR_CHANNEL_VALUE, MAX_COLOR_CHANNEL_VALUE⟩

/-- `Color::black`. -/
def Color.black : Color := ⟨0, 0, 0⟩

/-- `Color::mean_color` from src/image.rs.  The three channel sums are
`u16` accumulators, so each addition wraps modulo `2 ^ 16`; the divisor is
`colors.len() as u16`, i.e. the length truncated modulo `2 ^ 16`, and the
`u16` divisions panic when that divisor is zero (modelled as `none`).  The
final `as u8` casts truncate modulo `2 ^ 8`. -/
def Color.mean_color (colors : List Color) : Option Color :=
  let r := colors.foldl (fun acc c => (acc + c.r) % 65536) 0
  let g := colors.foldl (fun acc c => (acc + c.g) % 65536) 0
  let b := colors.foldl (fun acc c => (acc + c.b) % 65536) 0
  let n := colors.length % 65536
  if n = 0 then none
  else some ⟨r / n % 256, g / n % 256, b / n % 256⟩

/-- `Color::channel_gamma_correction`: `f64::sqrt(color as f64) as u8` for
a positive channel, identity on zero. -/
noncomputable def Color.channel_gamma_correction (c : ℕ) : ℕ :=
  if 0 < c then toU8 (Real.sqrt c) else c

/-- `Color::gamma_corrected`. -/
noncomputable def Color.gamma_corrected (c : Color) : Color :=
  ⟨Color.channel_gamma_correction c.r,
   Color.channel_gamma_correction c.g,
   Color.channel_gamma_correction c.b⟩

/-- Modelled from the spec: the componentwise colour product used by the
integrator (`scattered_ray.attenuation * Camera::ray_color(...)`).  The
`impl Mul&lt;Color&gt; for Color` block is missing from the packaged
src/image.rs (the file is truncated around its `impl Color` block), so the
spec's words are followed: attenuation is applied "componentwise,
normalized as if colors were in [0,1] and rescaled to 8-bit", i.e. each
channel becomes `(a * b) / 255` computed in `f64` and cast back to `u8`. -/
noncomputable def Color.mulC (a b : Color) : Color :=
  ⟨toU8 ((a.r : ℝ) * b.r / 255), toU8 ((a.g : ℝ) * b.g / 255), toU8 ((a.b : ℝ) * b.b / 255)⟩

/-- `Ray::blue_lerp` from src/object.rs: background gradient keyed on the
normalized direction's y component.  In `f64`, `255.0 * 0.7` evaluates to
`178.4999…` and truncates to `178`, the same channel value `⌊178.5⌋ = 178`
gives here. -/
noncomputable def Ray.blue_lerp (ray : Ray) : Color :=
  let normalized := ray.direction.normalized
  let a := 0.5 * (normalized.y + 1)
  let start_color : Color :=
    ⟨MAX_COLOR_CHANNEL_VALUE, MAX_COLOR_CHANNEL_VALUE, MAX_COLOR_CHANNEL_VALUE⟩
  let end_color : Color :=
    ⟨toU8 ((MAX_COLOR_CHANNEL_VALUE : ℝ) * 0.5),
     toU8 ((MAX_COLOR_CHANNEL_VALUE : ℝ) * 0.7),
     toU8 ((MAX_COLOR_CHANNEL_VALUE : ℝ) * 1.0)⟩
  Color.add (Color.smulC (1 - a) start_color) (Color.smulC a end_color)

/-- `Interval` from src/utils.rs.  The bounds are `f64` values and the code
uses `f64::INFINITY` as an upper bound, so the bounds are modelled in
`EReal`; every intersection parameter compared against them is a finite
real. -/
structure Interval where
  min : EReal
  max : EReal

/-- `Interval::contains`: strict open-interval test `min < x && max > x`. -/
def Interval.contains (i : Interval) (x : ℝ) : Prop :=
  i.min < (x : EReal) ∧ i.max > (x : EReal)

/-- `MaterialType` from src/object.rs. -/
inductive MaterialType where
  | lambertian : MaterialType
  | metal (fuzz : ℝ) : MaterialType

/-- `Material` from src/object.rs. -/
structure Material where
  material_type : MaterialType
  albedo : Color

/-- `HitRecord` from src/object.rs. -/
structure HitRecord where
  p : Point
  normal : Vec3
  t : ℝ
  front_face : Prop
  material : Material

/-- `HitRecord::is_hit_from_front`: the ray comes from outside iff its
direction and the outward normal have negative dot product. -/
def is_hit_from_front (ray : Ray) (outward_normal : Vec3) : Prop :=
  ray.direction.dot outward_normal < 0

/-- `Sphere` from src/object.rs. -/
structure Sphere where
  center : Point
  radius : ℝ
  material : Material

/-- Local `qc` of `Sphere::hit`: vector from the ray origin to the center. -/
noncomputable def Sphere.qc (s : Sphere) (ray : Ray) : Vec3 := s.center - ray.origin

/-- Local `a` of `Sphere::hit`. -/
noncomputable def Sphere.aCoeff (_s : Sphere) (ray : Ray) : ℝ :=
  ray.direction.dot ray.direction

/-- Local `h` of `Sphere::hit` (half of `-b`). -/
noncomputable def Sphere.hCoeff (s : Sphere) (ray : Ray) : ℝ :=
  ray.direction.dot (s.qc ray)

/-- Local `c` of `Sphere::hit`. -/
noncomputable def Sphere.cCoeff (s : Sphere) (ray : Ray) : ℝ :=
  (s.qc ray).dot (s.qc ray) - s.radius * s.radius

/-- The half-coefficient discriminant `h*h - a*c` of `Sphere::hit`. -/
noncomputable def Sphere.discriminant (s : Sphere) (ray : Ray) : ℝ :=
  s.hCoeff ray * s.hCoeff ray - s.aCoeff ray * s.cCoeff ray

/-- The smaller quadratic root `(h - √discriminant) / a` tried first. -/
noncomputable def Sphere.root1 (s : Sphere) (ray : Ray) : ℝ :=
  (s.hCoeff ray - Real.sqrt (s.discriminant ray)) / s.aCoeff ray

/-- The larger quadratic root `(h + √discriminant) / a` tried second. -/
noncomputable def Sphere.root2 (s : Sphere) (ray : Ray) : ℝ :=
  (s.hCoeff ray + Real.sqrt (s.discriminant ray)) / s.aCoeff ray

open Classical in
/-- The `HitRecord` built at the end of `Sphere::hit` for parameter
`root`: hit point, outward normal `(p - center) / radius`, `front_face`
via `is_hit_from_front`, and the normal flipped to oppose the ray when the
hit comes from inside. -/
noncomputable def Sphere.mkRecord (s : Sphere) (ray : Ray) (root : ℝ) : HitRecord :=
  let p := ray.pointAt root
  let outward_normal := (p - s.center).divS s.radius
  let front_face := is_hit_from_front ray outward_normal
  { t := root
    p := p
    normal := if front_face then outward_normal else (-1 : ℝ) • outward_normal
    front_face := front_face
    material := s.material }

open Classical in
/-- `Sphere::hit` (`impl Hittable for Sphere`): no hit on negative
discriminant, otherwise the smaller root if the interval strictly contains
it, else the larger root if contained, else no hit. -/
noncomputable def Sphere.hit (s : Sphere) (ray : Ray) (interval : Interval) :
    Option HitRecord :=
  if s.discriminant ray < 0 then none
  else if interval.contains (s.root1 ray) then some (s.mkRecord ray (s.root1 ray))
  else if interval.contains (s.root2 ray) then some (s.mkRecord ray (s.root2 ray))
  else none

/-- `World` from src/object.rs.  The Rust struct is generic over
`T: Hittable`; `Sphere` is the only implementor in the repository, so the
collection is a list of spheres. -/
structure World where
  objects : List Sphere

/-- The loop body of `World::hit`: each recorded hit shrinks the search
interval's upper bound to that hit's `t` before the next object is
tested. -/
noncomputable def worldHitAux (ray : Ray) :
    List Sphere → Interval → Option HitRecord → Option HitRecord
  | [], _, closest_hit => closest_hit
  | obj :: rest, interval, closest_hit =>
    match obj.hit ray interval with
    | some h => worldHitAux ray rest ⟨interval.min, (h.t : EReal)⟩ (some h)
    | none => worldHitAux ray rest interval closest_hit

/-- `World::hit`. -/
noncomputable def World.hit (w : World) (ray : Ray) (interval : Interval) :
    Option HitRecord :=
  worldHitAux ray w.objects interval none

/-- `ScatteredRay` from src/object.rs. -/
structure ScatteredRay where
  ray : Ray
  attenuation : Color

open Classical in
/-- The per-material scatter direction computed by `ScatteredRay::scatter`
before the final orientation fix.  `rnd` is the vector returned by the one
call to `Vec3::random_unit_vector` in either branch. -/
noncomputable def scatterDirRaw (hit : HitRecord) (incident_ray : Ray) (rnd : Vec3) : Vec3 :=
  match hit.material.material_type with
  | MaterialType.lambertian =>
    let scatter_direction := rnd + hit.normal
    if scatter_direction.near_zero then hit.normal else scatter_direction
  | MaterialType.metal fuzz =>
    (incident_ray.direction -
        (2 * incident_ray.direction.dot hit.normal) • hit.normal).normalized +
      fuzz • rnd

/-- `ScatteredRay::scatter`: compute the per-material direction, negate it
if it points into the surface, and emit a ray from the hit point carrying
the material's albedo as attenuation. -/
noncomputable def ScatteredRay.scatter (hit : HitRecord) (incident_ray : Ray) (rnd : Vec3) :
    ScatteredRay :=
  let scatter_direction :=
    if 0 ≤ (scatterDirRaw hit incident_ray rnd).dot hit.normal then
      scatterDirRaw hit incident_ray rnd
    else (-1 : ℝ) • scatterDirRaw hit incident_ray rnd
  { ray := { origin := hit.p, direction := scatter_direction }
    attenuation := hit.material.albedo }

/-- `MINIMUM_DISTANCE_AGAINST_SHADOW_ACNE` from src/image.rs. -/
noncomputable def MINIMUM_DISTANCE_AGAINST_SHADOW_ACNE : ℝ := 0.0001

/-- The interval `(ε, +∞)` that `Camera::ray_color` intersects against. -/
noncomputable def acneInterval : Interval :=
  ⟨(MINIMUM_DISTANCE_AGAINST_SHADOW_ACNE : EReal), ⊤⟩

/-- `Pixel` from src/image.rs. -/
structure Pixel where
  color : Color

/-- `Image` from src/image.rs. -/
structure Image where
  pixels : List (List Pixel)

/-- `Camera` from src/image.rs. -/
structure Camera where
  image_width : ℕ
  image_height : ℕ
  pixel_00_loc : Vec3
  pixel_delta_u : Vec3
  pixel_delta_v : Vec3
  center : Point
  sample_per_pixel : ℕ
  max_ray_bounces : ℕ

/-- `Camera::ray_color`: black once the bounce budget hits zero, recursive
attenuated scatter on a world hit over `(ε, +∞)`, background gradient on a
miss.  `rnd d` supplies the random unit vector consumed by the scatter
performed at remaining depth `d + 1`. -/
noncomputable def Camera.ray_color (world : World) (rnd : ℕ → Vec3) :
    Ray → ℕ → Color
  | _, 0 => Color.black
  | ray, depth + 1 =>
    match world.hit ray acneInterval with
    | some hit =>
      let scattered_ray := ScatteredRay.scatter hit ray (rnd depth)
      Color.mulC scattered_ray.attenuation
        (Camera.ray_color world rnd scattered_ray.ray depth)
    | none => ray.blue_lerp

/-- `Camera::initialize` (renamed to `build`).  Note the viewport width:
the source computes `viewport_height * (image_width / image_height) as
f64`, a `u32` integer division.  The `f64 as u32` cast of the height
truncates toward zero (negative values clamp to 0, covered by
`Int.toNat`). -/
noncomputable def Camera.build (aspect_ratio_ : ℝ) (image_width : ℕ)
    (sample_per_pixel : ℕ) (max_ray_bounces : ℕ) : Camera :=
  let image_height0 : ℕ := (⌊(image_width : ℝ) / aspect_ratio_⌋).toNat
  let image_height : ℕ := if image_height0 < 1 then 1 else image_height0
  let focal_length : ℝ := 1.0
  let viewport_height : ℝ := 2.0
  let viewport_width : ℝ := viewport_height * ((image_width / image_height : ℕ) : ℝ)
  let camera_center : Point := ⟨0, 0, 0⟩
  let viewport_u : Vec3 := ⟨0, 0, viewport_width⟩
  let viewport_v : Vec3 := ⟨0, -viewport_height, 0⟩
  let pixel_delta_u := viewport_u.divS image_width
  let pixel_delta_v := viewport_v.divS image_height
  let viewport_upper_left :=
    (⟨focal_length, 0, 0⟩ : Vec3) - viewport_u.divS 2 - viewport_v.divS 2
  let pixel_00_loc := viewport_upper_left + (0.5 : ℝ) • (pixel_delta_v + pixel_delta_u)
  { image_width := image_width
    image_height := image_height
    pixel_00_loc := pixel_00_loc
    pixel_delta_u := pixel_delta_u
    pixel_delta_v := pixel_delta_v
    center := camera_center
    sample_per_pixel := sample_per_pixel
    max_ray_bounces := max_ray_bounces }

/-- `Camera::get_ray`: `offset` is the random sample-square jitter drawn
for this sample. -/
noncomputable def Camera.get_ray (cam : Camera) (row col : ℕ) (offset : Vec3) : Ray :=
  let pixel_sample := cam.pixel_00_loc +
    ((col : ℝ) + offset.z) • cam.pixel_delta_u +
    ((row : ℝ) + offset.y) • cam.pixel_delta_v
  { origin := cam.center, direction := pixel_sample - cam.center }

/-- Sequencing of a fallible per-element computation over a list, as the
Rust render loop does implicitly: the first panic aborts the render. -/
def optionTraverse {α β : Type} (f : α → Option β) : List α → Option (List β)
  | [] => some []
  | a :: rest =>
    match f a, optionTraverse f rest with
    | some b, some bs => some (b :: bs)
    | _, _ => none

/-- `Camera::render`: for every pixel, draw `sample_per_pixel` jittered
rays, trace each through `ray_color`, average with `mean_color`, and
optionally gamma-correct.  `offsets row col s` is the jitter returned by
`Camera::sample_square` for sample `s` of pixel `(row, col)`, and
`srnd row col s` the stream of scatter vectors consumed by that sample's
bounces. -/
noncomputable def Camera.render (cam : Camera) (world : World)
    (offsets : ℕ → ℕ → ℕ → Vec3) (srnd : ℕ → ℕ → ℕ → ℕ → Vec3)
    (gamma_corrected : Bool) : Option Image :=
  let pixelFor : ℕ → ℕ → Option Pixel := fun row col =>
    let sampled_colors := (List.range cam.sample_per_pixel).map fun s =>
      Camera.ray_color world (srnd row col s)
        (cam.get_ray row col (offsets row col s)) cam.max_ray_bounces
    (Color.mean_color sampled_colors).map fun c =>
      if gamma_corrected then ⟨c.gamma_corrected⟩ else (⟨c⟩ : Pixel)
  (optionTraverse (fun row =>
      optionTraverse (fun col => pixelFor row col) (List.range cam.image_width))
    (List.range cam.image_height)).map fun rows => ⟨rows⟩

/-- A Lambertian test material (the concrete scenes below only need one). -/
def matL : Material := ⟨MaterialType.lambertian, ⟨230, 230, 230⟩⟩

/-- The ray from the origin along the positive x axis used by the concrete
scenes (it is the ray of the repository's own `hit_sphere` test). -/
noncomputable def xRay : Ray := ⟨⟨0, 0, 0⟩, ⟨1, 0, 0⟩⟩

/-- A unit sphere centred on the x axis at `(cx, 0, 0)`. -/
noncomputable def axisSphere (cx : ℝ) : Sphere := ⟨⟨cx, 0, 0⟩, 1, matL⟩

/-- A unit sphere centred at `(3, 0, zc)`, tangent to `xRay` when
`zc * zc = 1`. -/
noncomputable def tangentSphere (zc : ℝ) : Sphere := ⟨⟨3, 0, zc⟩, 1, matL⟩

/-- The finite search interval `(0, 100)` of the repository's own test. -/
noncomputable def itv100 : Interval := ⟨((0 : ℝ) : EReal), ((100 : ℝ) : EReal)⟩

/-- A hit record for the concrete scatter tests: the record the repository
test expects from `Sphere::hit` for `axisSphere 3` and `xRay`. -/
noncomputable def testHitL : HitRecord :=
  { p := ⟨2, 0, 0⟩, normal := ⟨-1, 0, 0⟩, t := 2, front_face := True, material := matL }

/-- A constant all-zero jitter stream for concrete render evaluations. -/
noncomputable def zeroOffsets : ℕ → ℕ → ℕ → Vec3 := fun _ _ _ => ⟨0, 0, 0⟩

/-- A constant all-zero scatter stream for concrete render evaluations. -/
noncomputable def zeroSrnd : ℕ → ℕ → ℕ → ℕ → Vec3 := fun _ _ _ _ => ⟨0, 0, 0⟩

@[simp] theorem Sphere.mkRecord_t (s : Sphere) (ray : Ray) (root : ℝ) :
    (s.mkRecord ray root).t = root := rfl

@[simp] theorem Sphere.mkRecord_p (s : Sphere) (ray : Ray) (root : ℝ) :
    (s.mkRecord ray root).p = ray.pointAt root := rfl

@[simp] theorem Sphere.mkRecord_material (s : Sphere) (ray : Ray) (root : ℝ) :
    (s.mkRecord ray root).material = s.material := rfl

theorem Vec3.dot_self_nonneg (v : Vec3) : 0 ≤ v.dot v := by
  have h : v.dot v = v.x ^ 2 + v.y ^ 2 + v.z ^ 2 := by unfold Vec3.dot; ring
  rw [h]; positivity

theorem Vec3.dot_neg_one_smul (v w : Vec3) : v.dot ((-1 : ℝ) • w) = -(v.dot w) := by
  simp only [Vec3.dot, Vec3.smul_x, Vec3.smul_y, Vec3.smul_z]; ring

theorem Sphere.aCoeff_nonneg (s : Sphere) (ray : Ray) : 0 ≤ s.aCoeff ray :=
  Vec3.dot_self_nonneg ray.direction

theorem Sphere.root1_le_root2 (s : Sphere) (ray : Ray) : s.root1 ray ≤ s.root2 ray := by
  unfold Sphere.root1 Sphere.root2
  rcases (s.aCoeff_nonneg ray).eq_or_lt with ha | ha
  · rw [← ha, div_zero, div_zero]
  · rw [div_le_div_iff₀ ha ha]
    nlinarith [Real.sqrt_nonneg (s.discriminant ray)]

theorem Sphere.hit_cases {s : Sphere} {ray : Ray} {itv : Interval} {hr : HitRecord}
    (h : s.hit ray itv = some hr) :
    ¬ s.discriminant ray < 0 ∧
      ((itv.contains (s.root1 ray) ∧ hr = s.mkRecord ray (s.root1 ray)) ∨
        (¬ itv.contains (s.root1 ray) ∧ itv.contains (s.root2 ray) ∧
          hr = s.mkRecord ray (s.root2 ray))) := by
  unfold Sphere.hit at h
  split_ifs at h with hd h1 h2
  · exact ⟨hd, Or.inl ⟨h1, (Option.some.inj h).symm⟩⟩
  · exact ⟨hd, Or.inr ⟨h1, h2, (Option.some.inj h).symm⟩⟩

theorem Sphere.hit_none_cases {s : Sphere} {ray : Ray} {itv : Interval}
    (h : s.hit ray itv = none) :
    s.discriminant ray < 0 ∨
      (¬ itv.contains (s.root1 ray) ∧ ¬ itv.contains (s.root2 ray)) := by
  unfold Sphere.hit at h
  split_ifs at h with hd h1 h2
  · exact Or.inl hd
  · exact Or.inr ⟨h1, h2⟩

theorem Sphere.hit_of_neg_disc {s : Sphere} {ray : Ray} (itv : Interval)
    (hd : s.discriminant ray < 0) : s.hit ray itv = none := by
  unfold Sphere.hit; rw [if_pos hd]

theorem Sphere.hit_of_root1 {s : Sphere} {ray : Ray} {itv : Interval}
    (hd : ¬ s.discriminant ray < 0) (h1 : itv.contains (s.root1 ray)) :
    s.hit ray itv = some (s.mkRecord ray (s.root1 ray)) := by
  unfold Sphere.hit; rw [if_neg hd, if_pos h1]

theorem Sphere.hit_of_root2 {s : Sphere} {ray : Ray} {itv : Interval}
    (hd : ¬ s.discriminant ray < 0) (h1 : ¬ itv.contains (s.root1 ray))
    (h2 : itv.contains (s.root2 ray)) :
    s.hit ray itv = some (s.mkRecord ray (s.root2 ray)) := by
  unfold Sphere.hit; rw [if_neg hd, if_neg h1, if_pos h2]

theorem Sphere.hit_of_none {s : Sphere} {ray : Ray} {itv : Interval}
    (h1 : ¬ itv.contains (s.root1 ray)) (h2 : ¬ itv.contains (s.root2 ray)) :
    s.hit ray itv = none := by
  unfold Sphere.hit
  split_ifs <;> rfl

theorem Sphere.hit_t_mem {s : Sphere} {ray : Ray} {itv : Interval} {hr : HitRecord}
    (h : s.hit ray itv = some hr) : itv.contains hr.t := by
  obtain ⟨-, hc⟩ := Sphere.hit_cases h
  rcases hc with ⟨h1, rfl⟩ | ⟨-, h2, rfl⟩ <;> simpa using ‹_›

theorem Interval.contains_of_narrow {m M : EReal} {tN : ℝ} (hle : (tN : EReal) ≤ M)
    {x : ℝ} (h : Interval.contains ⟨m, (tN : EReal)⟩ x) :
    Interval.contains ⟨m, M⟩ x :=
  ⟨h.1, lt_of_lt_of_le h.2 hle⟩

theorem Sphere.hit_narrow_none {s : Sphere} {ray : Ray} {m M : EReal} {tN : ℝ}
    (hle : (tN : EReal) ≤ M) (h : s.hit ray ⟨m, M⟩ = none) :
    s.hit ray ⟨m, (tN : EReal)⟩ = none := by
  rcases Sphere.hit_none_cases h with hd | ⟨h1, h2⟩
  · exact Sphere.hit_of_neg_disc _ hd
  · exact Sphere.hit_of_none (fun hc => h1 (Interval.contains_of_narrow hle hc))
      (fun hc => h2 (Interval.contains_of_narrow hle hc))

theorem Sphere.hit_narrow_some {s : Sphere} {ray : Ray} {m M : EReal} {tN : ℝ}
    {hr : HitRecord} (h : s.hit ray ⟨m, M⟩ = some hr) (hlt : hr.t < tN)
    (hle : (tN : EReal) ≤ M) : s.hit ray ⟨m, (tN : EReal)⟩ = some hr := by
  obtain ⟨hd, hc⟩ := Sphere.hit_cases h
  rcases hc with ⟨h1, rfl⟩ | ⟨h1, h2, rfl⟩
  · refine Sphere.hit_of_root1 hd ⟨h1.1, ?_⟩
    simp only [Sphere.mkRecord_t] at hlt
    exact EReal.coe_lt_coe_iff.mpr hlt
  · refine Sphere.hit_of_root2 hd
      (fun hc => h1 (Interval.contains_of_narrow hle hc)) ⟨h2.1, ?_⟩
    simp only [Sphere.mkRecord_t] at hlt
    exact EReal.coe_lt_coe_iff.mpr hlt

theorem Sphere.hit_narrow_rev {s : Sphere} {ray : Ray} {m M : EReal} {tN : ℝ}
    {hr : HitRecord} (h : s.hit ray ⟨m, (tN : EReal)⟩ = some hr)
    (hle : (tN : EReal) ≤ M) :
    ∃ hr0, s.hit ray ⟨m, M⟩ = some hr0 ∧ (hr0 = hr ∨ hr0.t < hr.t) := by
  obtain ⟨hd, hc⟩ := Sphere.hit_cases h
  rcases hc with ⟨h1, rfl⟩ | ⟨h1, h2, rfl⟩
  · exact ⟨_, Sphere.hit_of_root1 hd (Interval.contains_of_narrow hle h1), Or.inl rfl⟩
  · by_cases hcw : Interval.contains ⟨m, M⟩ (s.root1 ray)
    · refine ⟨_, Sphere.hit_of_root1 hd hcw, Or.inr ?_⟩
      simp only [Sphere.mkRecord_t]
      rcases (s.root1_le_root2 ray).eq_or_lt with heq | hlt
      · exact absurd (heq ▸ h2) h1
      · exact hlt
    · exact ⟨_, Sphere.hit_of_root2 hd hcw (Interval.contains_of_narrow hle h2),
        Or.inl rfl⟩

theorem worldHitAux_all_none (ray : Ray) {L : List Sphere} {itv : Interval}
    {acc : Option HitRecord} (h : ∀ o ∈ L, o.hit ray itv = none) :
    worldHitAux ray L itv acc = acc := by
  induction L with
  | nil => rfl
  | cons o rest ih =>
    simp only [worldHitAux, h o (List.mem_cons_self o rest)]
    exact ih fun o' ho' => h o' (List.mem_cons_of_mem _ ho')

theorem worldHitAux_min (ray : Ray) (L : List Sphere) :
    ∀ (m M : EReal) (acc : Option HitRecord) (h : HitRecord),
      (∃ o ∈ L, o.hit ray ⟨m, M⟩ = some h) →
      (∀ o ∈ L, ∀ h', o.hit ray ⟨m, M⟩ = some h' → h' = h ∨ h.t < h'.t) →
      worldHitAux ray L ⟨m, M⟩ acc = some h := by
  induction L with
  | nil =>
    rintro m M acc h ⟨o, ho, -⟩ -
    simp at ho
  | cons o rest ih =>
    rintro m M acc h ⟨o0, ho0, hhit0⟩ hmin
    cases hx : o.hit ray ⟨m, M⟩ with
    | none =>
      simp only [worldHitAux, hx]
      have ho0r : o0 ∈ rest := by
        rcases List.mem_cons.1 ho0 with rfl | hrm
        · rw [hx] at hhit0; cases hhit0
        · exact hrm
      exact ih m M acc h ⟨o0, ho0r, hhit0⟩
        fun o' ho' h' hh' => hmin o' (List.mem_cons_of_mem _ ho') h' hh'
    | some h1 =>
      simp only [worldHitAux, hx]
      have h1mem := Sphere.hit_t_mem hx
      have hle1 : (h1.t : EReal) ≤ M := le_of_lt h1mem.2
      rcases hmin o (List.mem_cons_self _ _) h1 hx with rfl | hlt
      · refine worldHitAux_all_none ray ?_
        intro o' ho'
        cases hy : o'.hit ray ⟨m, (h1.t : EReal)⟩ with
        | none => rfl
        | some h'' =>
          exfalso
          obtain ⟨h0, hh0, hc0⟩ := Sphere.hit_narrow_rev hy hle1
          have h''lt : h''.t < h1.t := by
            have := (Sphere.hit_t_mem hy).2
            exact EReal.coe_lt_coe_iff.mp this
          have h0le : h0.t ≤ h''.t := by
            rcases hc0 with rfl | hlt0
            · exact le_refl _
            · exact le_of_lt hlt0
          rcases hmin o' (List.mem_cons_of_mem _ ho') h0 hh0 with rfl | hgt
          · exact absurd (lt_of_le_of_lt h0le h''lt) (lt_irrefl _)
          · exact absurd (lt_of_le_of_lt h0le h''lt) (not_lt.mpr (le_of_lt hgt))
      · have ho0r : o0 ∈ rest := by
          rcases List.mem_cons.1 ho0 with rfl | hrm
          · rw [hx] at hhit0
            cases Option.some.inj hhit0
            exact absurd hlt (lt_irrefl _)
          · exact hrm
        refine ih m (h1.t : EReal) (some h1) h
          ⟨o0, ho0r, Sphere.hit_narrow_some hhit0 hlt hle1⟩ ?_
        intro o' ho' h'' hh''
        obtain ⟨h0, hh0, hc0⟩ := Sphere.hit_narrow_rev hh'' hle1
        rcases hmin o' (List.mem_cons_of_mem _ ho') h0 hh0 with rfl | hgt
        · rcases hc0 with heq | hlt0
          · exact Or.inl heq.symm
          · exact Or.inr hlt0
        · rcases hc0 with rfl | hlt0
          · exact Or.inr hgt
          · exact Or.inr (lt_trans hgt hlt0)

/-- C1: for every ray, search interval and world, `World::hit` returns the
valid hit with the strictly smallest parametric distance `t`: whenever one
object of the world reports hit `h` on the interval and every other
reported hit either equals `h` or has strictly larger `t`, the world query
returns exactly `h`.  The accompanying witness instantiates the spec's
concrete scenario: two overlapping spheres along one ray, plus a third
farther sphere that does not change the result. -/
theorem world_hit_nearest (w : World) (ray : Ray) (itv : Interval) (h : HitRecord)
    (hex : ∃ o ∈ w.objects, o.hit ray itv = some h)
    (hmin : ∀ o ∈ w.objects, ∀ h', o.hit ray itv = some h' → h' = h ∨ h.t < h'.t) :
    w.hit ray itv = some h :=
  worldHitAux_min ray w.objects itv.min itv.max none h hex hmin

/-- C3: `Sphere::hit` returns no hit on a negative half-coefficient
discriminant, otherwise the smaller root when the interval strictly
contains it, else the larger root when contained, else no hit; and every
returned record's `t` lies strictly inside the search interval. -/
theorem sphere_hit_root_selection (s : Sphere) (ray : Ray) (itv : Interval) :
    (s.discriminant ray < 0 → s.hit ray itv = none) ∧
    (¬ s.discriminant ray < 0 → itv.contains (s.root1 ray) →
      s.hit ray itv = some (s.mkRecord ray (s.root1 ray))) ∧
    (¬ s.discriminant ray < 0 → ¬ itv.contains (s.root1 ray) →
      itv.contains (s.root2 ray) →
      s.hit ray itv = some (s.mkRecord ray (s.root2 ray))) ∧
    (¬ itv.contains (s.root1 ray) → ¬ itv.contains (s.root2 ray) →
      s.hit ray itv = none) ∧
    (∀ hr, s.hit ray itv = some hr →
      itv.min < (hr.t : EReal) ∧ (hr.t : EReal) < itv.max) :=
  ⟨Sphere.hit_of_neg_disc itv,
   fun hd h1 => Sphere.hit_of_root1 hd h1,
   fun hd h1 h2 => Sphere.hit_of_root2 hd h1 h2,
   fun h1 h2 => Sphere.hit_of_none h1 h2,
   fun _ h => ⟨(Sphere.hit_t_mem h).1, (Sphere.hit_t_mem h).2⟩⟩

theorem axisSphere_disc (cx : ℝ) : (axisSphere cx).discriminant xRay = 1 := by
  unfold axisSphere xRay Sphere.discriminant Sphere.hCoeff Sphere.aCoeff
    Sphere.cCoeff Sphere.qc
  simp only [Vec3.dot, Vec3.sub_x, Vec3.sub_y, Vec3.sub_z]
  ring

theorem axisSphere_root1 (cx : ℝ) : (axisSphere cx).root1 xRay = cx - 1 := by
  unfold Sphere.root1
  rw [axisSphere_disc, Real.sqrt_one]
  unfold axisSphere xRay Sphere.hCoeff Sphere.aCoeff Sphere.qc
  simp only [Vec3.dot, Vec3.sub_x, Vec3.sub_y, Vec3.sub_z]
  ring_nf

theorem axisSphere_contains_root1 (cx : ℝ) (h1 : 1 < cx) (h2 : cx < 101) :
    itv100.contains ((axisSphere cx).root1 xRay) := by
  rw [axisSphere_root1]
  exact ⟨EReal.coe_lt_coe_iff.mpr (by linarith), EReal.coe_lt_coe_iff.mpr (by linarith)⟩

theorem axisSphere_hit (cx : ℝ) (h1 : 1 < cx) (h2 : cx < 101) :
    (axisSphere cx).hit xRay itv100 =
      some ((axisSphere cx).mkRecord xRay (cx - 1)) := by
  have hd : ¬ (axisSphere cx).discriminant xRay < 0 := by
    rw [axisSphere_disc]; norm_num
  have := Sphere.hit_of_root1 hd (axisSphere_contains_root1 cx h1 h2)
  rwa [axisSphere_root1] at this

/-- Witness for C3 at the repository's own test scene: the unit sphere at
`(3,0,0)` queried with the x-axis ray over `(0, 100)` takes the
smaller-root branch, and that root is `t = 2`. -/
theorem sphere_hit_root_selection_example :
    (axisSphere 3).hit xRay itv100 =
        some ((axisSphere 3).mkRecord xRay ((axisSphere 3).root1 xRay)) ∧
      (axisSphere 3).root1 xRay = 2 := by
  constructor
  · exact (sphere_hit_root_selection (axisSphere 3) xRay itv100).2.1
      (by rw [axisSphere_disc]; norm_num)
      (axisSphere_contains_root1 3 (by norm_num) (by norm_num))
  · rw [axisSphere_root1]; norm_num

theorem Vec3.neg_one_smul_dot (v w : Vec3) : ((-1 : ℝ) • v).dot w = -(v.dot w) := by
  simp only [Vec3.dot, Vec3.smul_x, Vec3.smul_y, Vec3.smul_z]; ring

open Classical in
theorem Sphere.mkRecord_front_face (s : Sphere) (ray : Ray) (root : ℝ) :
    (s.mkRecord ray root).front_face =
      is_hit_from_front ray ((ray.pointAt root - s.center).divS s.radius) := rfl

open Classical in
theorem Sphere.mkRecord_normal (s : Sphere) (ray : Ray) (root : ℝ) :
    (s.mkRecord ray root).normal =
      if is_hit_from_front ray ((ray.pointAt root - s.center).divS s.radius) then
        (ray.pointAt root - s.center).divS s.radius
      else (-1 : ℝ) • ((ray.pointAt root - s.center).divS s.radius) := rfl

/-- C5: every record returned by `Sphere::hit` has `front_face` equal to
`dot(ray.direction, (p - center)/radius) < 0`, and its stored normal
opposes the incident ray, from outside and from inside alike. -/
theorem hit_record_normal_orientation (s : Sphere) (ray : Ray) (itv : Interval)
    (hr : HitRecord) (h : s.hit ray itv = some hr) :
    (hr.front_face ↔ ray.direction.dot ((hr.p - s.center).divS s.radius) < 0) ∧
    ray.direction.dot hr.normal ≤ 0 := by
  have key : ∀ root : ℝ,
      ((s.mkRecord ray root).front_face ↔
        ray.direction.dot (((s.mkRecord ray root).p - s.center).divS s.radius) < 0) ∧
      ray.direction.dot (s.mkRecord ray root).normal ≤ 0 := by
    intro root
    constructor
    · rw [Sphere.mkRecord_front_face, Sphere.mkRecord_p]
      exact Iff.rfl
    · by_cases hf : is_hit_from_front ray ((ray.pointAt root - s.center).divS s.radius)
      · rw [Sphere.mkRecord_normal, if_pos hf]
        exact le_of_lt hf
      · rw [Sphere.mkRecord_normal, if_neg hf, Vec3.dot_neg_one_smul]
        have := not_lt.mp hf
        linarith
  obtain ⟨-, hc⟩ := Sphere.hit_cases h
  rcases hc with ⟨-, rfl⟩ | ⟨-, -, rfl⟩ <;> exact key _

/-- Witness for C5: the record of the repository's test hit (unit sphere
at `(3,0,0)`, x-axis ray, `t = 3 - 1`) has a normal whose dot product with
the ray direction is nonpositive. -/
theorem hit_record_normal_orientation_example :
    xRay.direction.dot (((axisSphere 3).mkRecord xRay ((3 : ℝ) - 1)).normal) ≤ 0 :=
  (hit_record_normal_orientation (axisSphere 3) xRay itv100 _
    (axisSphere_hit 3 (by norm_num) (by norm_num))).2

open Classical in
theorem ScatteredRay.scatter_def (hit : HitRecord) (incident_ray : Ray) (rnd : Vec3) :
    ScatteredRay.scatter hit incident_ray rnd =
      { ray := { origin := hit.p
                 direction :=
                   if 0 ≤ (scatterDirRaw hit incident_ray rnd).dot hit.normal then
                     scatterDirRaw hit incident_ray rnd
                   else (-1 : ℝ) • scatterDirRaw hit incident_ray rnd }
        attenuation := hit.material.albedo } := rfl

/-- C4: for both material variants, the scattered ray starts at the hit
point, its direction has nonnegative dot product with the stored surface
normal (a computed direction pointing into the surface is negated), and
the attenuation is the struck material's albedo. -/
theorem scatter_leaves_surface (hit : HitRecord) (incident_ray : Ray) (rnd : Vec3) :
    (ScatteredRay.scatter hit incident_ray rnd).ray.origin = hit.p ∧
    0 ≤ (ScatteredRay.scatter hit incident_ray rnd).ray.direction.dot hit.normal ∧
    (ScatteredRay.scatter hit incident_ray rnd).attenuation = hit.material.albedo ∧
    ((scatterDirRaw hit incident_ray rnd).dot hit.normal < 0 →
      (ScatteredRay.scatter hit incident_ray rnd).ray.direction =
        (-1 : ℝ) • scatterDirRaw hit incident_ray rnd) := by
  rw [ScatteredRay.scatter_def]
  by_cases hd : 0 ≤ (scatterDirRaw hit incident_ray rnd).dot hit.normal
  · rw [if_pos hd]
    exact ⟨rfl, hd, rfl, fun hlt => absurd hlt (not_lt.mpr hd)⟩
  · rw [if_neg hd]
    refine ⟨rfl, ?_, rfl, fun _ => rfl⟩
    rw [Vec3.neg_one_smul_dot]
    linarith [not_le.mp hd]

/-- Witness for C4 at a concrete Lambertian hit record: the scattered ray
starts at the hit point `(2,0,0)` and carries the material's albedo. -/
theorem scatter_leaves_surface_example :
    (ScatteredRay.scatter testHitL xRay ⟨1, 0, 0⟩).ray.origin = Vec3.mk 2 0 0 ∧
    (ScatteredRay.scatter testHitL xRay ⟨1, 0, 0⟩).attenuation = Color.mk 230 230 230 := by
  have h := scatter_leaves_surface testHitL xRay ⟨1, 0, 0⟩
  exact ⟨h.1.trans rfl, h.2.2.1.trans rfl⟩

/-- C10: `Vec3::near_zero` compares the signed components against `1e-8`
with no absolute value, so it accepts vectors of large Euclidean length —
in particular every vector with all components negative, such as
`(-1,-1,-1)` whose length exceeds `1e-8` — and the Lambertian scatter
fallback then replaces such a direction with the surface normal. -/
theorem near_zero_signed :
    (∀ v : Vec3, v.near_zero ↔ (v.x < 1e-8 ∧ v.y < 1e-8 ∧ v.z < 1e-8)) ∧
    (∀ v : Vec3, v.x < 0 → v.y < 0 → v.z < 0 → v.near_zero) ∧
    ((Vec3.mk (-1) (-1) (-1)).near_zero ∧ 1e-8 < (Vec3.mk (-1) (-1) (-1)).len) ∧
    (∀ (hit : HitRecord) (incident_ray : Ray) (rnd : Vec3),
      hit.material.material_type = MaterialType.lambertian →
      (rnd + hit.normal).near_zero →
      (ScatteredRay.scatter hit incident_ray rnd).ray.direction = hit.normal) := by
  refine ⟨fun v => Iff.rfl, ?_, ⟨?_, ?_⟩, ?_⟩
  · intro v hx hy hz
    exact ⟨lt_trans hx (by norm_num), lt_trans hy (by norm_num), lt_trans hz (by norm_num)⟩
  · exact ⟨by norm_num, by norm_num, by norm_num⟩
  · unfold Vec3.len
    have h3 : ((-1 : ℝ) * -1 + -1 * -1 + -1 * -1) = 3 := by norm_num
    rw [show (Vec3.mk (-1) (-1) (-1)).x * (Vec3.mk (-1) (-1) (-1)).x +
          (Vec3.mk (-1) (-1) (-1)).y * (Vec3.mk (-1) (-1) (-1)).y +
          (Vec3.mk (-1) (-1) (-1)).z * (Vec3.mk (-1) (-1) (-1)).z = 3 from h3]
    have hs : (1 : ℝ) ≤ Real.sqrt 3 := by
      rw [show (1 : ℝ) = Real.sqrt 1 from Real.sqrt_one.symm]
      exact Real.sqrt_le_sqrt (by norm_num)
    linarith
  · intro hit incident_ray rnd hmat hnz
    have hraw : scatterDirRaw hit incident_ray rnd = hit.normal := by
      unfold scatterDirRaw
      rw [hmat]
      exact if_pos hnz
    have h0 : 0 ≤ (scatterDirRaw hit incident_ray rnd).dot hit.normal := by
      rw [hraw]; exact Vec3.dot_self_nonneg _
    rw [ScatteredRay.scatter_def]
    show (if _ then _ else _) = _
    rw [if_pos h0, hraw]

/-- Witness for C10: the Lambertian fallback fires on the non-degenerate
random vector `(-1,-1,-1)` (sum with the normal is `(-2,-1,-1)`, far from
zero in length) and the scattered direction becomes the surface normal. -/
theorem near_zero_signed_example :
    (ScatteredRay.scatter testHitL xRay ⟨-1, -1, -1⟩).ray.direction = Vec3.mk (-1) 0 0 := by
  have h := near_zero_signed.2.2.2 testHitL xRay ⟨-1, -1, -1⟩ rfl
    (by refine ⟨?_, ?_, ?_⟩ <;> norm_num [testHitL])
  exact h.trans rfl

/-- Witness for C1: with two overlapping unit spheres at `(3,0,0)` and
`(4,0,0)` along the x-axis ray, the closer hit (`t = 2`) is returned, and
adding a third farther sphere at `(10,0,0)` does not change the result. -/
theorem world_hit_nearest_example :
    World.hit ⟨[axisSphere 3, axisSphere 4]⟩ xRay itv100 =
        some ((axisSphere 3).mkRecord xRay ((3 : ℝ) - 1)) ∧
      World.hit ⟨[axisSphere 3, axisSphere 4, axisSphere 10]⟩ xRay itv100 =
        some ((axisSphere 3).mkRecord xRay ((3 : ℝ) - 1)) := by
  have h3 := axisSphere_hit 3 (by norm_num) (by norm_num)
  have h4 := axisSphere_hit 4 (by norm_num) (by norm_num)
  have h10 := axisSphere_hit 10 (by norm_num) (by norm_num)
  constructor
  · refine world_hit_nearest _ xRay itv100 _ ⟨axisSphere 3, by simp, h3⟩ ?_
    intro o ho h' hh'
    fin_cases ho
    · exact Or.inl (Option.some.inj (h3.symm.trans hh')).symm
    · have : h' = (axisSphere 4).mkRecord xRay (4 - 1) :=
        (Option.some.inj (h4.symm.trans hh')).symm
      subst this
      refine Or.inr ?_
      simp only [Sphere.mkRecord_t]
      norm_num
  · refine world_hit_nearest _ xRay itv100 _ ⟨axisSphere 3, by simp, h3⟩ ?_
    intro o ho h' hh'
    fin_cases ho
    · exact Or.inl (Option.some.inj (h3.symm.trans hh')).symm
    · have : h' = (axisSphere 4).mkRecord xRay (4 - 1) :=
        (Option.some.inj (h4.symm.trans hh')).symm
      subst this
      refine Or.inr ?_
      simp only [Sphere.mkRecord_t]
      norm_num
    · have : h' = (axisSphere 10).mkRecord xRay (10 - 1) :=
        (Option.some.inj (h10.symm.trans hh')).symm
      subst this
      refine Or.inr ?_
      simp only [Sphere.mkRecord_t]
      norm_num

theorem tangentSphere_disc (zc : ℝ) (h : zc * zc = 1) :
    (tangentSphere zc).discriminant xRay = 0 := by
  unfold tangentSphere xRay Sphere.discriminant Sphere.hCoeff Sphere.aCoeff
    Sphere.cCoeff Sphere.qc
  simp only [Vec3.dot, Vec3.sub_x, Vec3.sub_y, Vec3.sub_z]
  linear_combination -h

theorem tangentSphere_root1 (zc : ℝ) (h : zc * zc = 1) :
    (tangentSphere zc).root1 xRay = 3 := by
  unfold Sphere.root1
  rw [tangentSphere_disc zc h, Real.sqrt_zero]
  unfold tangentSphere xRay Sphere.hCoeff Sphere.aCoeff Sphere.qc
  simp only [Vec3.dot, Vec3.sub_x, Vec3.sub_y, Vec3.sub_z]
  norm_num

theorem tangentSphere_root2 (zc : ℝ) (h : zc * zc = 1) :
    (tangentSphere zc).root2 xRay = 3 := by
  unfold Sphere.root2
  rw [tangentSphere_disc zc h, Real.sqrt_zero]
  unfold tangentSphere xRay Sphere.hCoeff Sphere.aCoeff Sphere.qc
  simp only [Vec3.dot, Vec3.sub_x, Vec3.sub_y, Vec3.sub_z]
  norm_num

theorem tangentSphere_hit (zc : ℝ) (h : zc * zc = 1) :
    (tangentSphere zc).hit xRay itv100 =
      some ((tangentSphere zc).mkRecord xRay 3) := by
  have hd : ¬ (tangentSphere zc).discriminant xRay < 0 := by
    rw [tangentSphere_disc zc h]; norm_num
  have hc : itv100.contains ((tangentSphere zc).root1 xRay) := by
    rw [tangentSphere_root1 zc h]
    exact ⟨EReal.coe_lt_coe_iff.mpr (by norm_num), EReal.coe_lt_coe_iff.mpr (by norm_num)⟩
  have := Sphere.hit_of_root1 hd hc
  rwa [tangentSphere_root1 zc h] at this

theorem tangentSphere_miss_narrow (zc : ℝ) (h : zc * zc = 1) :
    (tangentSphere zc).hit xRay ⟨((0 : ℝ) : EReal), ((3 : ℝ) : EReal)⟩ = none := by
  apply Sphere.hit_of_none
  · rw [tangentSphere_root1 zc h]
    rintro ⟨-, h2⟩
    exact absurd (EReal.coe_lt_coe_iff.mp h2) (by norm_num)
  · rw [tangentSphere_root2 zc h]
    rintro ⟨-, h2⟩
    exact absurd (EReal.coe_lt_coe_iff.mp h2) (by norm_num)

theorem tangentRecord_normal_z (zc : ℝ) :
    ((tangentSphere zc).mkRecord xRay 3).normal.z = zc := by
  rw [Sphere.mkRecord_normal]
  have hff : ¬ is_hit_from_front xRay
      ((xRay.pointAt 3 - (tangentSphere zc).center).divS (tangentSphere zc).radius) := by
    unfold is_hit_from_front Ray.pointAt tangentSphere xRay
    simp only [Vec3.dot, Vec3.sub_x, Vec3.sub_y, Vec3.sub_z, Vec3.add_x, Vec3.add_y,
      Vec3.add_z, Vec3.mulS_x, Vec3.mulS_y, Vec3.mulS_z, Vec3.divS_x, Vec3.divS_y,
      Vec3.divS_z]
    norm_num
  rw [if_neg hff]
  unfold Ray.pointAt tangentSphere xRay
  simp only [Vec3.smul_z, Vec3.divS_z, Vec3.sub_z, Vec3.add_z, Vec3.mulS_z]
  norm_num

/-- C8 counterexample: for the two unit spheres at `(3,0,1)` and
`(3,0,-1)`, both tangent to the x-axis ray at `t = 3`, permuting the world
changes the returned hit (the stored normals differ), because the strict
`<` tie-break keeps the earlier object's hit. -/
theorem world_hit_perm_cex :
    World.hit ⟨[tangentSphere 1, tangentSphere (-1)]⟩ xRay itv100 ≠
      World.hit ⟨[tangentSphere (-1), tangentSphere 1]⟩ xRay itv100 := by
  have hA := tangentSphere_hit 1 (by norm_num)
  have hB := tangentSphere_hit (-1) (by norm_num)
  have mA := tangentSphere_miss_narrow 1 (by norm_num)
  have mB := tangentSphere_miss_narrow (-1) (by norm_num)
  simp only [itv100] at hA hB
  have e1 : World.hit ⟨[tangentSphere 1, tangentSphere (-1)]⟩ xRay itv100 =
      some ((tangentSphere 1).mkRecord xRay 3) := by
    show worldHitAux xRay [tangentSphere 1, tangentSphere (-1)] itv100 none =
      some ((tangentSphere 1).mkRecord xRay 3)
    simp only [itv100, worldHitAux, hA, Sphere.mkRecord_t, mB]
  have e2 : World.hit ⟨[tangentSphere (-1), tangentSphere 1]⟩ xRay itv100 =
      some ((tangentSphere (-1)).mkRecord xRay 3) := by
    show worldHitAux xRay [tangentSphere (-1), tangentSphere 1] itv100 none =
      some ((tangentSphere (-1)).mkRecord xRay 3)
    simp only [itv100, worldHitAux, hB, Sphere.mkRecord_t, mA]
  rw [e1, e2]
  intro heq
  have hz := congrArg (fun r => r.normal.z) (Option.some.inj heq)
  simp only [tangentRecord_normal_z] at hz
  norm_num at hz

theorem exists_min_t (l : List HitRecord) (hne : l ≠ []) :
    ∃ hm ∈ l, ∀ h' ∈ l, hm.t ≤ h'.t := by
  induction l with
  | nil => exact absurd rfl hne
  | cons a rest ih =>
    rcases eq_or_ne rest [] with rfl | hrne
    · refine ⟨a, List.mem_cons_self _ _, ?_⟩
      intro h' hh'
      rcases List.mem_cons.1 hh' with rfl | hh'
      · exact le_refl _
      · exact absurd hh' (List.not_mem_nil h')
    · obtain ⟨hm, hm_mem, hmin⟩ := ih hrne
      rcases le_total a.t hm.t with hle | hle
      · refine ⟨a, List.mem_cons_self _ _, ?_⟩
        intro h' hh'
        rcases List.mem_cons.1 hh' with rfl | hh'
        · exact le_refl _
        · exact le_trans hle (hmin h' hh')
      · refine ⟨hm, List.mem_cons_of_mem _ hm_mem, ?_⟩
        intro h' hh'
        rcases List.mem_cons.1 hh' with rfl | hh'
        · exact hle
        · exact hmin h' hh'

/-- C8 amended: permuting the world's object list leaves `World::hit`
unchanged provided no two distinct reported hits share the same `t`
(equal `t` forces the very same record).  Without that proviso the claim
fails: ties are kept by the earlier object, not resolved by `t` alone (see
the counterexample with two tangent spheres). -/
theorem world_hit_perm (ray : Ray) (itv : Interval) (L1 L2 : List Sphere)
    (hperm : L1.Perm L2)
    (hinj : ∀ o1 ∈ L1, ∀ o2 ∈ L1, ∀ h1 h2, o1.hit ray itv = some h1 →
      o2.hit ray itv = some h2 → h1.t = h2.t → h1 = h2) :
    World.hit ⟨L1⟩ ray itv = World.hit ⟨L2⟩ ray itv := by
  by_cases hall : ∀ o ∈ L1, o.hit ray itv = none
  · have hall2 : ∀ o ∈ L2, o.hit ray itv = none := fun o ho =>
      hall o (hperm.mem_iff.mpr ho)
    show worldHitAux ray L1 itv none = worldHitAux ray L2 itv none
    rw [worldHitAux_all_none ray hall, worldHitAux_all_none ray hall2]
  · push_neg at hall
    obtain ⟨o, ho, hone⟩ := hall
    obtain ⟨h0, hh0⟩ := Option.ne_none_iff_exists'.mp hone
    have hmem0 : h0 ∈ L1.filterMap (fun o' => o'.hit ray itv) :=
      List.mem_filterMap.mpr ⟨o, ho, hh0⟩
    have hne' : L1.filterMap (fun o' => o'.hit ray itv) ≠ [] := by
      intro hEq
      rw [hEq] at hmem0
      exact (List.not_mem_nil h0) hmem0
    obtain ⟨hm, hm_mem, hmin⟩ := exists_min_t _ hne'
    obtain ⟨om, hom, homhit⟩ := List.mem_filterMap.mp hm_mem
    have key1 : ∀ o' ∈ L1, ∀ h', o'.hit ray itv = some h' → h' = hm ∨ hm.t < h'.t := by
      intro o' ho' h' hh'
      have hmem' : h' ∈ L1.filterMap (fun o'' => o''.hit ray itv) :=
        List.mem_filterMap.mpr ⟨o', ho', hh'⟩
      rcases (hmin h' hmem').eq_or_lt with heq | hlt
      · exact Or.inl (hinj o' ho' om hom h' hm hh' homhit heq.symm)
      · exact Or.inr hlt
    have key2 : ∀ o' ∈ L2, ∀ h', o'.hit ray itv = some h' → h' = hm ∨ hm.t < h'.t :=
      fun o' ho' => key1 o' (hperm.mem_iff.mpr ho')
    have e1 : worldHitAux ray L1 itv none = some hm :=
      worldHitAux_min ray L1 itv.min itv.max none hm ⟨om, hom, homhit⟩ key1
    have e2 : worldHitAux ray L2 itv none = some hm :=
      worldHitAux_min ray L2 itv.min itv.max none hm
        ⟨om, hperm.mem_iff.mp hom, homhit⟩ key2
    show worldHitAux ray L1 itv none = worldHitAux ray L2 itv none
    rw [e1, e2]

/-- Witness for C8 amended: the two overlapping spheres at `(3,0,0)` and
`(4,0,0)` hit the x-axis ray at distinct `t` values, so swapping them
leaves the world query unchanged. -/
theorem world_hit_perm_example :
    World.hit ⟨[axisSphere 3, axisSphere 4]⟩ xRay itv100 =
      World.hit ⟨[axisSphere 4, axisSphere 3]⟩ xRay itv100 := by
  have h3 := axisSphere_hit 3 (by norm_num) (by norm_num)
  have h4 := axisSphere_hit 4 (by norm_num) (by norm_num)
  refine world_hit_perm xRay itv100 _ _ (List.Perm.swap _ _ _) ?_
  intro o1 ho1 o2 ho2 h1 h2 hh1 hh2 hteq
  fin_cases ho1 <;> fin_cases ho2
  · exact (Option.some.inj (h3.symm.trans hh1)).symm.trans
      (Option.some.inj (h3.symm.trans hh2))
  · exfalso
    have e1 : h1 = (axisSphere 3).mkRecord xRay (3 - 1) :=
      (Option.some.inj (h3.symm.trans hh1)).symm
    have e2 : h2 = (axisSphere 4).mkRecord xRay (4 - 1) :=
      (Option.some.inj (h4.symm.trans hh2)).symm
    rw [e1, e2] at hteq
    simp only [Sphere.mkRecord_t] at hteq
    norm_num at hteq
  · exfalso
    have e1 : h1 = (axisSphere 4).mkRecord xRay (4 - 1) :=
      (Option.some.inj (h4.symm.trans hh1)).symm
    have e2 : h2 = (axisSphere 3).mkRecord xRay (3 - 1) :=
      (Option.some.inj (h3.symm.trans hh2)).symm
    rw [e1, e2] at hteq
    simp only [Sphere.mkRecord_t] at hteq
    norm_num at hteq
  · exact (Option.some.inj (h4.symm.trans hh1)).symm.trans
      (Option.some.inj (h4.symm.trans hh2))

theorem toU8_eq (x : ℝ) (n : ℕ) (hn : n ≤ 255) (h1 : (n : ℝ) ≤ x) (h2 : x < n + 1) :
    toU8 x = n := by
  unfold toU8
  have hf : ⌊x⌋ = (n : ℤ) := by
    rw [Int.floor_eq_iff]
    constructor
    · exact_mod_cast h1
    · exact_mod_cast h2
  rw [hf, min_eq_right (by exact_mod_cast hn : (n : ℤ) ≤ 255)]
  simp

theorem blue_lerp_eval (ray : Ray) :
    Ray.blue_lerp ray =
      Color.add
        (Color.smulC (1 - 0.5 * (ray.direction.normalized.y + 1))
          ⟨MAX_COLOR_CHANNEL_VALUE, MAX_COLOR_CHANNEL_VALUE, MAX_COLOR_CHANNEL_VALUE⟩)
        (Color.smulC (0.5 * (ray.direction.normalized.y + 1))
          ⟨toU8 ((MAX_COLOR_CHANNEL_VALUE : ℝ) * 0.5),
           toU8 ((MAX_COLOR_CHANNEL_VALUE : ℝ) * 0.7),
           toU8 ((MAX_COLOR_CHANNEL_VALUE : ℝ) * 1.0)⟩) := rfl

theorem toU8_max_half : toU8 ((MAX_COLOR_CHANNEL_VALUE : ℝ) * 0.5) = 127 :=
  toU8_eq _ 127 (by norm_num) (by norm_num [MAX_COLOR_CHANNEL_VALUE])
    (by norm_num [MAX_COLOR_CHANNEL_VALUE])

theorem toU8_max_s7 : toU8 ((MAX_COLOR_CHANNEL_VALUE : ℝ) * 0.7) = 178 :=
  toU8_eq _ 178 (by norm_num) (by norm_num [MAX_COLOR_CHANNEL_VALUE])
    (by norm_num [MAX_COLOR_CHANNEL_VALUE])

theorem toU8_max_one : toU8 ((MAX_COLOR_CHANNEL_VALUE : ℝ) * 1.0) = 255 :=
  toU8_eq _ 255 (by norm_num) (by norm_num [MAX_COLOR_CHANNEL_VALUE])
    (by norm_num [MAX_COLOR_CHANNEL_VALUE])

theorem blue_lerp_of_y_one (ray : Ray) (hy : ray.direction.normalized.y = 1) :
    Ray.blue_lerp ray = Color.mk 127 178 255 := by
  rw [blue_lerp_eval, hy, toU8_max_half, toU8_max_s7, toU8_max_one]
  rw [show (1 : ℝ) - 0.5 * (1 + 1) = 0 by norm_num]
  rw [show (0.5 : ℝ) * (1 + 1) = 1 by norm_num]
  show Color.add
      ⟨toU8 ((0 : ℝ) * ((MAX_COLOR_CHANNEL_VALUE : ℕ) : ℝ)),
       toU8 ((0 : ℝ) * ((MAX_COLOR_CHANNEL_VALUE : ℕ) : ℝ)),
       toU8 ((0 : ℝ) * ((MAX_COLOR_CHANNEL_VALUE : ℕ) : ℝ))⟩
      ⟨toU8 ((1 : ℝ) * ((127 : ℕ) : ℝ)), toU8 ((1 : ℝ) * ((178 : ℕ) : ℝ)),
       toU8 ((1 : ℝ) * ((255 : ℕ) : ℝ))⟩ = Color.mk 127 178 255
  rw [show toU8 ((0 : ℝ) * ((MAX_COLOR_CHANNEL_VALUE : ℕ) : ℝ)) = 0 from
      toU8_eq _ 0 (by norm_num) (by norm_num) (by norm_num)]
  rw [show toU8 ((1 : ℝ) * ((127 : ℕ) : ℝ)) = 127 from
      toU8_eq _ 127 (by norm_num) (by norm_num) (by norm_num)]
  rw [show toU8 ((1 : ℝ) * ((178 : ℕ) : ℝ)) = 178 from
      toU8_eq _ 178 (by norm_num) (by norm_num) (by norm_num)]
  rw [show toU8 ((1 : ℝ) * ((255 : ℕ) : ℝ)) = 255 from
      toU8_eq _ 255 (by norm_num) (by norm_num) (by norm_num)]
  rfl

theorem blue_lerp_of_y_neg_one (ray : Ray) (hy : ray.direction.normalized.y = -1) :
    Ray.blue_lerp ray = Color.white := by
  rw [blue_lerp_eval, hy, toU8_max_half, toU8_max_s7, toU8_max_one]
  rw [show (1 : ℝ) - 0.5 * (-1 + 1) = 1 by norm_num]
  rw [show (0.5 : ℝ) * (-1 + 1) = 0 by norm_num]
  show Color.add
      ⟨toU8 ((1 : ℝ) * ((MAX_COLOR_CHANNEL_VALUE : ℕ) : ℝ)),
       toU8 ((1 : ℝ) * ((MAX_COLOR_CHANNEL_VALUE : ℕ) : ℝ)),
       toU8 ((1 : ℝ) * ((MAX_COLOR_CHANNEL_VALUE : ℕ) : ℝ))⟩
      ⟨toU8 ((0 : ℝ) * ((127 : ℕ) : ℝ)), toU8 ((0 : ℝ) * ((178 : ℕ) : ℝ)),
       toU8 ((0 : ℝ) * ((255 : ℕ) : ℝ))⟩ = Color.white
  rw [show toU8 ((1 : ℝ) * ((MAX_COLOR_CHANNEL_VALUE : ℕ) : ℝ)) = 255 from
      toU8_eq _ 255 (by norm_num) (by norm_num [MAX_COLOR_CHANNEL_VALUE])
        (by norm_num [MAX_COLOR_CHANNEL_VALUE])]
  rw [show toU8 ((0 : ℝ) * ((127 : ℕ) : ℝ)) = 0 from
      toU8_eq _ 0 (by norm_num) (by norm_num) (by norm_num)]
  rw [show toU8 ((0 : ℝ) * ((178 : ℕ) : ℝ)) = 0 from
      toU8_eq _ 0 (by norm_num) (by norm_num) (by norm_num)]
  rw [show toU8 ((0 : ℝ) * ((255 : ℕ) : ℝ)) = 0 from
      toU8_eq _ 0 (by norm_num) (by norm_num) (by norm_num)]
  rfl

theorem normalized_y_up (c : ℝ) (hc : 0 < c) : (Vec3.mk 0 c 0).normalized.y = 1 := by
  show c / Real.sqrt (0 * 0 + c * c + 0 * 0) = 1
  rw [show (0 * 0 + c * c + 0 * 0 : ℝ) = c * c by ring, Real.sqrt_mul_self hc.le,
    div_self hc.ne']

theorem normalized_y_down (c : ℝ) (hc : 0 < c) :
    (Vec3.mk 0 (-c) 0).normalized.y = -1 := by
  show -c / Real.sqrt (0 * 0 + -c * -c + 0 * 0) = -1
  rw [show (0 * 0 + -c * -c + 0 * 0 : ℝ) = c * c by ring, Real.sqrt_mul_self hc.le,
    neg_div, div_self hc.ne']

/-- C2 counterexample: the ray aimed straight up (normalized direction y
component `+1`) produces the sky-blue endpoint `(127,178,255)` of the
gradient, not pure white — the code blends toward the blue `end_color` as
`y` rises, the opposite orientation of the claim. -/
theorem blue_lerp_top_cex :
    Ray.blue_lerp ⟨⟨0, 0, 0⟩, ⟨0, 1, 0⟩⟩ = Color.mk 127 178 255 ∧
      Color.mk 127 178 255 ≠ Color.white := by
  constructor
  · exact blue_lerp_of_y_one _ (normalized_y_up 1 one_pos)
  · decide

/-- C2 amended: a ray that hits nothing gets the vertical gradient that is
white at normalized direction `y = -1` and the fixed sky-blue
`(127,178,255)` at `y = +1`, linearly interpolated in between; a ray aimed
straight up therefore resolves to the sky-blue top colour, not white. -/
theorem ray_color_miss_gradient (w : World) (rnd : ℕ → Vec3) (ray : Ray) (depth : ℕ)
    (hmiss : w.hit ray acneInterval = none) :
    Camera.ray_color w rnd ray (depth + 1) = ray.blue_lerp ∧
    (∀ (o : Vec3) (c : ℝ), 0 < c →
      Ray.blue_lerp ⟨o, ⟨0, c, 0⟩⟩ = Color.mk 127 178 255 ∧
      Ray.blue_lerp ⟨o, ⟨0, -c, 0⟩⟩ = Color.white) := by
  constructor
  · simp only [Camera.ray_color, hmiss]
  · intro o c hc
    exact ⟨blue_lerp_of_y_one _ (normalized_y_up c hc),
      blue_lerp_of_y_neg_one _ (normalized_y_down c hc)⟩

/-- Witness for C2 amended: in the empty world the straight-up ray
evaluates through `ray_color` to the sky-blue gradient endpoint. -/
theorem ray_color_miss_gradient_example :
    Camera.ray_color ⟨[]⟩ (fun _ => ⟨0, 0, 0⟩) ⟨⟨0, 0, 0⟩, ⟨0, 1, 0⟩⟩ 1 =
      Color.mk 127 178 255 := by
  have h := ray_color_miss_gradient ⟨[]⟩ (fun _ => ⟨0, 0, 0⟩)
    ⟨⟨0, 0, 0⟩, ⟨0, 1, 0⟩⟩ 0 rfl
  exact h.1.trans (blue_lerp_of_y_one _ (normalized_y_up 1 one_pos))

theorem Camera.build_image_height (ar : ℝ) (w spp mrb : ℕ) :
    (Camera.build ar w spp mrb).image_height =
      if (⌊(w : ℝ) / ar⌋).toNat < 1 then 1 else (⌊(w : ℝ) / ar⌋).toNat := rfl

theorem Camera.build_pixel_delta_u (ar : ℝ) (w spp mrb : ℕ) :
    (Camera.build ar w spp mrb).pixel_delta_u =
      (Vec3.mk 0 0
        (2.0 * ((w / (Camera.build ar w spp mrb).image_height : ℕ) : ℝ))).divS (w : ℝ) := rfl

theorem Camera.build_pixel_delta_v (ar : ℝ) (w spp mrb : ℕ) :
    (Camera.build ar w spp mrb).pixel_delta_v =
      (Vec3.mk 0 (-2.0) 0).divS (((Camera.build ar w spp mrb).image_height : ℕ) : ℝ) := rfl

/-- C6 counterexample: at `aspect_ratio = 3/2`, `image_width = 500`, the
image height is `333` but `pixel_delta_u · image_width` spans a viewport
width of `2.0` — the `u32` division `image_width / image_height` truncates
`500/333` to `1` — whereas the claim demands `2.0 · aspect_ratio = 3.0`. -/
theorem camera_build_viewport_cex :
    (Camera.build (3 / 2) 500 1 1).image_height = 333 ∧
      (500 : ℝ) * (Camera.build (3 / 2) 500 1 1).pixel_delta_u.z = 2 ∧
      (2 : ℝ) ≠ 2 * (3 / 2) := by
  have hfloor : ⌊((500 : ℕ) : ℝ) / (3 / 2)⌋ = 333 := by
    rw [Int.floor_eq_iff]
    norm_num
  have e_ih : (Camera.build (3 / 2 : ℝ) 500 1 1).image_height = 333 := by
    rw [Camera.build_image_height, hfloor]
    decide
  refine ⟨e_ih, ?_, by norm_num⟩
  rw [Camera.build_pixel_delta_u, e_ih]
  simp only [Vec3.divS_z]
  norm_num

/-- C6 amended: `Camera::initialize` computes
`image_height = max(1, ⌊image_width / aspect_ratio⌋)`, places the focal
point at distance `1.0` (the viewport upper-left is at `x = 1`), uses
viewport height `2.0` (`pixel_delta_v · image_height` spans `-2.0`), and
derives the per-pixel steps by dividing the viewport extents by the image
dimensions — but the viewport width is `2.0 · (image_width ⌊/⌋
image_height)` with a truncating `u32` division, which equals
`2.0 · aspect_ratio` only when that integer ratio happens to equal the
aspect ratio. -/
theorem camera_build_viewport (ar : ℝ) (w spp mrb : ℕ) (_har : 0 < ar) (hw : 1 ≤ w) :
    (Camera.build ar w spp mrb).image_height = max 1 (⌊(w : ℝ) / ar⌋).toNat ∧
    1 ≤ (Camera.build ar w spp mrb).image_height ∧
    (Camera.build ar w spp mrb).pixel_00_loc.x = 1 ∧
    (Camera.build ar w spp mrb).pixel_delta_u =
      (Vec3.mk 0 0
        (2.0 * ((w / (Camera.build ar w spp mrb).image_height : ℕ) : ℝ))).divS (w : ℝ) ∧
    (Camera.build ar w spp mrb).pixel_delta_v =
      (Vec3.mk 0 (-2.0) 0).divS (((Camera.build ar w spp mrb).image_height : ℕ) : ℝ) ∧
    (w : ℝ) * (Camera.build ar w spp mrb).pixel_delta_u.z =
      2.0 * ((w / (Camera.build ar w spp mrb).image_height : ℕ) : ℝ) ∧
    ((Camera.build ar w spp mrb).image_height : ℝ) *
      (Camera.build ar w spp mrb).pixel_delta_v.y = -2.0 := by
  have hmax : (Camera.build ar w spp mrb).image_height = max 1 (⌊(w : ℝ) / ar⌋).toNat := by
    rw [Camera.build_image_height]
    split_ifs with hlt <;> omega
  have hih : 1 ≤ (Camera.build ar w spp mrb).image_height := by
    rw [hmax]; exact le_max_left _ _
  have hwne : (w : ℝ) ≠ 0 := Nat.cast_ne_zero.mpr (by omega)
  have hihne : (((Camera.build ar w spp mrb).image_height : ℕ) : ℝ) ≠ 0 :=
    Nat.cast_ne_zero.mpr (by omega)
  refine ⟨hmax, hih, ?_, Camera.build_pixel_delta_u ar w spp mrb,
    Camera.build_pixel_delta_v ar w spp mrb, ?_, ?_⟩
  · simp only [Camera.build]
    simp
    norm_num
  · rw [Camera.build_pixel_delta_u]
    simp only [Vec3.divS_z]
    rw [mul_comm, div_mul_cancel₀ _ hwne]
  · rw [Camera.build_pixel_delta_v]
    simp only [Vec3.divS_y]
    rw [mul_comm, div_mul_cancel₀ _ hihne]

/-- Witness for C6 amended at `aspect_ratio = 1`, `image_width = 2`: the
height is `2` and `pixel_delta_u · image_width` spans `2.0 · (2/2) = 2`. -/
theorem camera_build_viewport_example :
    (Camera.build 1 2 1 1).image_height = 2 ∧
      ((2 : ℕ) : ℝ) * (Camera.build 1 2 1 1).pixel_delta_u.z =
        2.0 * ((2 / (Camera.build 1 2 1 1).image_height : ℕ) : ℝ) := by
  have h := camera_build_viewport 1 2 1 1 one_pos (by norm_num)
  have e_ih : (Camera.build (1 : ℝ) 2 1 1).image_height = 2 := by
    rw [h.1, show ((2 : ℕ) : ℝ) / 1 = 2 by norm_num,
      show ⌊(2 : ℝ)⌋ = 2 from by rw [Int.floor_eq_iff]; norm_num]
    decide
  exact ⟨e_ih, h.2.2.2.2.2.1⟩

theorem foldl_channel_replicate (f : Color → ℕ) (col : Color) (n : ℕ) :
    ∀ acc : ℕ, acc + n * f col ≤ 65535 →
      List.foldl (fun acc c => (acc + f c) % 65536) acc (List.replicate n col) =
        acc + n * f col := by
  induction n with
  | zero => intro acc h; simp
  | succ k ih =>
    intro acc h
    rw [List.replicate_succ, List.foldl_cons]
    have hmul : (k + 1) * f col = k * f col + f col := Nat.succ_mul _ _
    have h1 : (acc + f col) % 65536 = acc + f col := Nat.mod_eq_of_lt (by omega)
    rw [h1, ih (acc + f col) (by omega)]
    omega

theorem foldl_r_replicate (col : Color) (n acc : ℕ) (h : acc + n * col.r ≤ 65535) :
    List.foldl (fun acc c => (acc + c.r) % 65536) acc (List.replicate n col) =
      acc + n * col.r :=
  foldl_channel_replicate (fun c => c.r) col n acc h

theorem foldl_g_replicate (col : Color) (n acc : ℕ) (h : acc + n * col.g ≤ 65535) :
    List.foldl (fun acc c => (acc + c.g) % 65536) acc (List.replicate n col) =
      acc + n * col.g :=
  foldl_channel_replicate (fun c => c.g) col n acc h

theorem foldl_b_replicate (col : Color) (n acc : ℕ) (h : acc + n * col.b ≤ 65535) :
    List.foldl (fun acc c => (acc + c.b) % 65536) acc (List.replicate n col) =
      acc + n * col.b :=
  foldl_channel_replicate (fun c => c.b) col n acc h

/-- C7 amended: the per-pixel mean of `n` identical colours is exactly
that colour provided the `u16` arithmetic does not overflow (all three
channel sums `n · channel` stay below `2^16`) and the `u16` cast of the
length is nonzero (`n ≤ 65535`); the counterexample shows the claim fails
as stated once a channel sum wraps. -/
theorem mean_color_identical (n : ℕ) (c : Color) (h1 : 1 ≤ n) (h2 : n ≤ 65535)
    (hcr : c.r ≤ 255) (hcg : c.g ≤ 255) (hcb : c.b ≤ 255)
    (hr : n * c.r ≤ 65535) (hg : n * c.g ≤ 65535) (hb : n * c.b ≤ 65535) :
    Color.mean_color (List.replicate n c) = some c := by
  simp only [Color.mean_color, List.length_replicate]
  rw [Nat.mod_eq_of_lt (by omega : n < 65536), if_neg (by omega : ¬ n = 0)]
  rw [foldl_r_replicate c n 0 (by omega)]
  rw [foldl_g_replicate c n 0 (by omega)]
  rw [foldl_b_replicate c n 0 (by omega)]
  simp only [Nat.zero_add]
  rw [Nat.mul_div_cancel_left c.r (by omega : 0 < n),
    Nat.mul_div_cancel_left c.g (by omega : 0 < n),
    Nat.mul_div_cancel_left c.b (by omega : 0 < n)]
  rw [Nat.mod_eq_of_lt (by omega : c.r < 256), Nat.mod_eq_of_lt (by omega : c.g < 256),
    Nat.mod_eq_of_lt (by omega : c.b < 256)]

/-- Witness for C7 amended: the mean of two copies of `(1,2,3)` is
`(1,2,3)` exactly. -/
theorem mean_color_identical_example :
    Color.mean_color (List.replicate 2 (Color.mk 1 2 3)) = some (Color.mk 1 2 3) :=
  mean_color_identical 2 (Color.mk 1 2 3) (by norm_num) (by norm_num) (by norm_num)
    (by norm_num) (by norm_num) (by norm_num) (by norm_num) (by norm_num)

set_option maxRecDepth 8000 in
/-- C7 counterexample: with 258 copies of white, the `u16` channel sums
wrap (`258 · 255 = 65790 ≡ 254 (mod 2^16)`), the truncated sum divided by
258 is `0`, and the mean comes out black instead of white. -/
theorem mean_color_identical_cex :
    Color.mean_color (List.replicate 258 (Color.mk 255 255 255)) = some (Color.mk 0 0 0) ∧
      some (Color.mk 0 0 0) ≠ some (Color.mk 255 255 255) := by
  constructor
  · rfl
  · decide

theorem optionTraverse_isSome {α β : Type} (f : α → Option β) :
    ∀ l : List α, (∀ a ∈ l, (f a).isSome) → (optionTraverse f l).isSome := by
  intro l
  induction l with
  | nil => intro _; rfl
  | cons a rest ih =>
    intro h
    obtain ⟨b, hb⟩ := Option.isSome_iff_exists.mp (h a (List.mem_cons_self _ _))
    obtain ⟨bs, hbs⟩ := Option.isSome_iff_exists.mp
      (ih fun a' ha' => h a' (List.mem_cons_of_mem _ ha'))
    simp only [optionTraverse, hb, hbs]
    rfl

theorem mean_color_isSome (colors : List Color)
    (h : colors.length % 65536 ≠ 0) : (Color.mean_color colors).isSome := by
  simp only [Color.mean_color]
  rw [if_neg h]
  rfl

/-- C9 amended: `render` (and the helpers it calls) is total for every
camera whose `sample_per_pixel` is nonzero as a `u16`
(`samples % 2^16 ≠ 0`, in particular `1 ≤ samples ≤ 65535`), every world,
every random stream and either gamma setting; at `samples_per_pixel = 0`
the per-pixel `mean_color` divides by zero (a Rust panic), refuting the
claim's "including samples_per_pixel = 0". -/
theorem render_total (cam : Camera) (world : World) (offsets : ℕ → ℕ → ℕ → Vec3)
    (srnd : ℕ → ℕ → ℕ → ℕ → Vec3) (gc : Bool)
    (h : cam.sample_per_pixel % 65536 ≠ 0) :
    (cam.render world offsets srnd gc).isSome := by
  simp only [Camera.render]
  have hT : (optionTraverse (fun row =>
      optionTraverse (fun col =>
        (Color.mean_color ((List.range cam.sample_per_pixel).map fun s =>
          Camera.ray_color world (srnd row col s)
            (cam.get_ray row col (offsets row col s)) cam.max_ray_bounces)).map fun c =>
          if gc then ⟨c.gamma_corrected⟩ else (⟨c⟩ : Pixel)) (List.range cam.image_width))
      (List.range cam.image_height)).isSome := by
    apply optionTraverse_isSome
    intro row _
    apply optionTraverse_isSome
    intro col _
    have hm := mean_color_isSome ((List.range cam.sample_per_pixel).map fun s =>
        Camera.ray_color world (srnd row col s)
          (cam.get_ray row col (offsets row col s)) cam.max_ray_bounces)
      (by rw [List.length_map, List.length_range]; exact h)
    obtain ⟨c, hc⟩ := Option.isSome_iff_exists.mp hm
    simp only [hc, Option.map_some']
    rfl
  obtain ⟨rows, hrows⟩ := Option.isSome_iff_exists.mp hT
  simp only [hrows, Option.map_some']
  rfl

/-- Witness for C9 amended: a 1×1 render with one sample per pixel over
the empty world succeeds. -/
theorem render_total_example :
    ((Camera.build 1 1 1 1).render ⟨[]⟩ zeroOffsets zeroSrnd false).isSome := by
  apply render_total
  show (1 : ℕ) % 65536 ≠ 0
  norm_num

/-- C9 counterexample: with `samples_per_pixel = 0` the very first pixel's
`mean_color` receives an empty list and divides by zero — `render` is not
total there, contradicting the claim. -/
theorem render_total_cex :
    (Camera.build 1 1 0 1).render ⟨[]⟩ zeroOffsets zeroSrnd false = none := by
  have hh : (Camera.build (1 : ℝ) 1 0 1).image_height = 1 := by
    rw [Camera.build_image_height]
    norm_num
  simp only [Camera.render, hh]
  rfl

end RayTracer
